import Mathlib

/-!
Verification of the slack-gemini remediation bot (`src/bot.py`).

Python strings are modelled as `List Char`; Python `str.strip()` is
modelled by `trimL` over the same whitespace class; `str.splitlines()`
is modelled as splitting on the newline character (for texts using
`\n` line terminators, the two agree up to the trailing empty segment,
which the final `strip()` in the source erases).
-/

abbrev Str := List Char

/-- Whitespace class of Python `str.strip()` / regex `\s` (ASCII part). -/
def pyWsp (c : Char) : Bool :=
  c = ' ' || c = '\t' || c = '\n' || c = '\r' || c = '\x0b' || c = '\x0c'

/-- Model of Python `str.strip()`: drop whitespace from both ends. -/
def trimL (s : Str) : Str :=
  ((s.dropWhile pyWsp).reverse.dropWhile pyWsp).reverse

/-- Split a character list at every occurrence of `c` (the separators are
dropped); models Python `text.split(sep)` / the `\n` case of `splitlines`. -/
def splitOnChar (c : Char) : Str → List Str
  | [] => [[]]
  | x :: xs =>
    match splitOnChar c xs with
    | [] => [[]]
    | h :: t => if x = c then [] :: h :: t else (x :: h) :: t

/-- Join segments with the character `c` between them; models
`sep.join(parts)`. -/
def joinChar (c : Char) : List Str → Str
  | [] => []
  | [l] => l
  | l :: ls => l ++ c :: joinChar c ls

/-- Lines of a text: `str.splitlines()` modelled as split on newline. -/
def splitLines (s : Str) : List Str := splitOnChar '\n' s

/-- `"\n".join(lines)`. -/
def joinLines (ls : List Str) : Str := joinChar '\n' ls

-- ==========================================
-- SlackUIManager.safe_truncate  (src/bot.py:188-191)
-- ==========================================

/-- The fixed truncation marker appended by `safe_truncate`
(`"\n\n... (文字数制限のため以下略)"`, 19 characters). -/
def truncation_suffix : Str := "\n\n... (文字数制限のため以下略)".toList

/-- Python slice `s[:k]` where `k` may be negative: a negative bound counts
from the end (clamped at 0). -/
def pySliceTo (s : Str) (k : Int) : Str :=
  if 0 ≤ k then s.take k.toNat else s.take ((s.length : Int) + k).toNat

/-- `SlackUIManager.safe_truncate` (src/bot.py:188-191): return `text`
unchanged when it fits, otherwise `text[:limit - len(suffix)] + suffix`. -/
def safe_truncate (text : Str) (limit : Nat) : Str :=
  if text.length ≤ limit then text
  else pySliceTo text ((limit : Int) - (truncation_suffix.length : Int)) ++ truncation_suffix


-- ==========================================
-- GeminiAgent._preamble_patterns / _strip_preamble  (src/bot.py:35-38, 48-58)
-- ==========================================

def apostrophe : Char := Char.ofNat 39

/-- The literal alternatives of the anchored regex
`^(I'll |I will |Let me |I need to |I should |Checking |Looking |Reading
|Searching |Executing |\[tool:)` (src/bot.py:35-38). -/
def preamble_patterns : List Str :=
  [ "I".toList ++ apostrophe :: "ll ".toList,
    "I will ".toList, "Let me ".toList, "I need to ".toList, "I should ".toList,
    "Checking ".toList, "Looking ".toList, "Reading ".toList, "Searching ".toList,
    "Executing ".toList, "[tool:".toList ]

/-- `self._preamble_patterns.match(stripped)`: anchored, `re.IGNORECASE`. -/
def matchesPreamble (s : Str) : Bool :=
  preamble_patterns.any (fun p => (p.map Char.toLower).isPrefixOf (s.map Char.toLower))

/-- The loop of `_strip_preamble` (src/bot.py:51-57): index of the first line
that is neither blank nor an opener; `none` when no such line exists
(in which case the source keeps `first_content_idx = 0`). -/
def findContentIdx : List Str → Option Nat
  | [] => none
  | l :: ls =>
    let stripped := trimL l
    if stripped = [] then (findContentIdx ls).map (· + 1)
    else if matchesPreamble stripped then (findContentIdx ls).map (· + 1)
    else some 0

/-- `GeminiAgent._strip_preamble` (src/bot.py:48-58). -/
def strip_preamble (text : Str) : Str :=
  let lines := splitLines text
  let first_content_idx := (findContentIdx lines).getD 0
  trimL (joinLines (lines.drop first_content_idx))




-- ==========================================
-- GeminiAgent._execute_with_fallback  (src/bot.py:60-93)
-- ==========================================

/-- Outcome of one `subprocess.run(["gemini", ...])` call: either a completed
process (any return code, captured stdout/stderr) or a raised exception
(the `except` branch of src/bot.py:88-90). -/
inductive ExecOutcome where
  | proc (returncode : Int) (stdout stderr : Str)
  | exn (msg : Str)

/-- The external world: what invoking the agent with a given model identifier
and prompt produces. -/
def ExecEnv := String → Str → ExecOutcome

/-- The loop of `_execute_with_fallback` (src/bot.py:68-93), instrumented with
the list of models actually invoked. `last` carries
`(last_stdout, last_stderr)`; on a zero return code the call returns
`(stdout.strip(), "")` at once, on a non-zero code it records
`(stdout.strip(), stderr.strip())`, and on an exception it records only the
stderr (`last_stderr = str(e)`). -/
def execFB (env : ExecEnv) (prompt : Str) (last : Str × Str) :
    List String → (Str × Str) × List String
  | [] => (last, [])
  | m :: ms =>
    match env m prompt with
    | .proc code out err =>
      if code = 0 then ((trimL out, []), [m])
      else
        let r := execFB env prompt (trimL out, trimL err) ms
        (r.1, m :: r.2)
    | .exn e =>
      let r := execFB env prompt (last.1, e) ms
      (r.1, m :: r.2)

/-- `GeminiAgent._execute_with_fallback` (src/bot.py:60-93): the returned
`(stdout, stderr)` pair. -/
def execute_with_fallback (env : ExecEnv) (prompt : Str) (models : List String) : Str × Str :=
  (execFB env prompt ([], []) models).1

/-- The models `_execute_with_fallback` actually invokes, in order. -/
def invokedModels (env : ExecEnv) (prompt : Str) (models : List String) : List String :=
  (execFB env prompt ([], []) models).2

-- ==========================================
-- GeminiAgent.summarize / run  (src/bot.py:95-136)
-- ==========================================

/-- The summarization prompt built by `GeminiAgent.summarize`
(src/bot.py:102-111). -/
def summary_prompt (raw_text context : Str) : Str :=
  "あなたは優秀なAIコンシェルジュです。以下の生出力（".toList ++ context ++
  "）を読み取り、開発者がSlackで内容を即座に理解できるように日本語で要約してください。\n\n【ルール】\n1. 思考プロセスやツール実行ログなどのノイズは完全に排除する。\n2. 脆弱性の特定、修正方針、検証結果などの重要なポイントを箇条書きで抽出する。\n3. 技術的に正確な情報を保ちつつ、丁寧でプロフェッショナルな日本語にする。\n4. 結論から書き始める。\n\n--- 生出力開始 ---\n".toList ++
  raw_text ++ "\n--- 生出力終了 ---".toList

/-- `GeminiAgent.summarize` (src/bot.py:95-116), instrumented with the
`(model, prompt)` invocations it performs. -/
def summarizeT (env : ExecEnv) (flash_models : List String) (raw_text context : Str) :
    Str × List (String × Str) :=
  if raw_text = [] ∨ ("Error output:".toList).isPrefixOf raw_text then (raw_text, [])
  else
    let sp := summary_prompt raw_text context
    let r := execFB env sp ([], []) flash_models
    ((if r.1.1 = [] then "Summarization failed: ".toList ++ r.1.2 else r.1.1),
     r.2.map (fun m => (m, sp)))

/-- `GeminiAgent.summarize` — the returned text. -/
def summarize (env : ExecEnv) (flash_models : List String) (raw_text context : Str) : Str :=
  (summarizeT env flash_models raw_text context).1

/-- `GeminiAgent.run` (src/bot.py:118-136), instrumented with the
`(model, prompt)` invocations of both stages. -/
def runT (env : ExecEnv) (pro_models flash_models : List String) (prompt context_name : Str) :
    Str × List (String × Str) :=
  let r := execFB env prompt ([], []) pro_models
  let stage1 := r.2.map (fun m => (m, prompt))
  let raw_stdout := strip_preamble r.1.1
  if raw_stdout = [] ∧ r.1.2 ≠ [] then ("Error output:\n".toList ++ r.1.2, stage1)
  else if raw_stdout = [] then ("(No output from gemini)".toList, stage1)
  else
    let s := summarizeT env flash_models raw_stdout context_name
    (s.1, stage1 ++ s.2)

/-- `GeminiAgent.run` — the returned text. -/
def runAgent (env : ExecEnv) (pro_models flash_models : List String)
    (prompt context_name : Str) : Str :=
  (runT env pro_models flash_models prompt context_name).1

/-- All `(model, prompt)` pairs invoked during `GeminiAgent.run`. -/
def runInvoked (env : ExecEnv) (pro_models flash_models : List String)
    (prompt context_name : Str) : List (String × Str) :=
  (runT env pro_models flash_models prompt context_name).2

-- ==========================================
-- ProjectManager.extract_snyk_project  (src/bot.py:150-161)
-- Embedding of re.search(r"Project:\s*(?:<[^>]+\|)?([a-zA-Z0-9_-]+/[a-zA-Z0-9_-]+)", text)
-- ==========================================

/-- The character class `[a-zA-Z0-9_-]`. -/
def isWordChar (c : Char) : Bool :=
  (('a' ≤ c && c ≤ 'z') || ('A' ≤ c && c ≤ 'Z') || ('0' ≤ c && c ≤ '9')
    || c = '_' || c = '-')

/-- The capture group `([a-zA-Z0-9_-]+/[a-zA-Z0-9_-]+)` matched at the head of
`s`. The `+` repetitions are greedy, and since `/` is outside the class no
backtracking can arise. -/
def matchIdent (s : Str) : Option Str :=
  let w1 := s.takeWhile isWordChar
  if w1 = [] then none
  else
    match s.dropWhile isWordChar with
    | '/' :: r2 =>
      let w2 := r2.takeWhile isWordChar
      if w2 = [] then none else some (w1 ++ '/' :: w2)
    | _ => none

/-- The optional group `<[^>]+\|` matched at the head of `'<' :: rest`,
followed by the capture group. `[^>]+` is greedy, so the engine tries the
*last* `|` inside the maximal `[^>]`-run first and backtracks leftwards. -/
def matchBracket (rest : Str) : Option Str :=
  let run := rest.takeWhile (fun c => c ≠ '>')
  (((List.range run.length).filter
      (fun i => 1 ≤ i && run.getD i ' ' = '|')).reverse).findSome?
    (fun p => matchIdent (rest.drop (p + 1)))

/-- The part of the pattern after the literal `Project:` label:
`\s*(?:<[^>]+\|)?(...)`. The optional group is tried first (greedy `?`); if
it cannot yield a full match the engine retries without it. -/
def matchAfterLabel (s : Str) : Option Str :=
  let s1 := s.dropWhile pyWsp
  match s1 with
  | '<' :: rest =>
    match matchBracket rest with
    | some g => some g
    | none => matchIdent s1
  | _ => matchIdent s1

/-- `re.search`: try every start position left to right; a match must begin
with the literal `Project:`. -/
def searchProject : Str → Option Str
  | [] => none
  | c :: tail =>
    if ("Project:".toList).isPrefixOf (c :: tail) then
      match matchAfterLabel ((c :: tail).drop 8) with
      | some g => some g
      | none => searchProject tail
    else searchProject tail

structure Attachment where
  fallback : Str
  text : Str

structure SlackEvent where
  text : Str
  attachments : List Attachment

/-- `texts_to_check` (src/bot.py:152-155): the primary text, then each
attachment's `fallback` and `text` in order. -/
def texts_to_check (ev : SlackEvent) : List Str :=
  ev.text :: (ev.attachments.map (fun a => [a.fallback, a.text])).flatten

/-- The scan loop of src/bot.py:157-160: skip empty fields, return the first
field's first match. -/
def firstProjectMatch : List Str → Option Str
  | [] => none
  | t :: ts =>
    if t = [] then firstProjectMatch ts
    else
      match searchProject t with
      | some g => some g
      | none => firstProjectMatch ts

/-- `ProjectManager.extract_snyk_project` (src/bot.py:150-161). -/
def extract_snyk_project (ev : SlackEvent) : Str :=
  (firstProjectMatch (texts_to_check ev)).getD []




-- ==========================================
-- ProjectManager.setup_repository  (src/bot.py:163-171)
-- ==========================================

/-- The git side effects `setup_repository` can perform; `check=True` calls
raise on failure, modelled as `Except` values. -/
structure GitEnv where
  dirExists : Str → Bool
  cloneRepo : Str → Str → Except Str Unit
  fetchOrigin : Str → Except Str Unit

/-- `target_dir = os.path.join(self.projects_root, project_name.split("/")[-1])`
(src/bot.py:164-165). -/
def target_dir_of (projects_root project_name : Str) : Str :=
  projects_root ++ '/' :: (splitOnChar '/' project_name).getLastD []

/-- `ProjectManager.setup_repository` (src/bot.py:163-171). Both git calls
use `check=True`, so a failing call raises `CalledProcessError`
(`Except.error`) out of the function. -/
def setup_repository (env : GitEnv) (projects_root project_name : Str) :
    Except Str Str :=
  let target_dir := target_dir_of projects_root project_name
  if env.dirExists target_dir = false then
    match env.cloneRepo ("git@github.com:".toList ++ project_name ++ ".git".toList)
        target_dir with
    | .ok _ => .ok target_dir
    | .error e => .error e
  else
    match env.fetchOrigin target_dir with
    | .ok _ => .ok target_dir
    | .error e => .error e

-- ==========================================
-- json.dumps({"project": ..., "dir": ...})  (src/bot.py:217, 244)
-- Python's default ensure_ascii=True string escaping.
-- ==========================================

/-- Lowercase hex digit for `n < 16`. -/
def hexDigitChar (n : Nat) : Char :=
  if n < 10 then Char.ofNat (48 + n) else Char.ofNat (87 + n)

/-- Four lowercase hex digits of `n < 0x10000`. -/
def hex4 (n : Nat) : Str :=
  [hexDigitChar (n / 4096 % 16), hexDigitChar (n / 256 % 16),
   hexDigitChar (n / 16 % 16), hexDigitChar (n % 16)]

/-- A `\uXXXX` escape. -/
def uEscape (n : Nat) : Str := '\\' :: 'u' :: hex4 n

/-- `json.dumps` escaping of one character (default `ensure_ascii=True`):
`"` and `\` and the C0 shorthands get two-character escapes, every other
character outside printable ASCII becomes `\uXXXX` (a surrogate pair for
code points above U+FFFF), printable ASCII is kept verbatim. -/
def escapeChar (c : Char) : Str :=
  if c = '"' then ['\\', '"']
  else if c = '\\' then ['\\', '\\']
  else if c = '\n' then ['\\', 'n']
  else if c = '\r' then ['\\', 'r']
  else if c = '\t' then ['\\', 't']
  else if c = '\x08' then ['\\', 'b']
  else if c = '\x0c' then ['\\', 'f']
  else if c.toNat < 0x20 ∨ 0x7e < c.toNat then
    if c.toNat < 0x10000 then uEscape c.toNat
    else uEscape (0xd800 + (c.toNat - 0x10000) / 0x400) ++
         uEscape (0xdc00 + (c.toNat - 0x10000) % 0x400)
  else [c]

/-- A JSON string literal: `"` + escaped characters + `"`. -/
def encodeJString (s : Str) : Str :=
  '"' :: s.flatMap escapeChar ++ ['"']

/-- `json.dumps({"project": project_name, "dir": target_dir})` with Python's
default separators (src/bot.py:217 and src/bot.py:244). -/
def dumps_payload (project dir : Str) : Str :=
  "\x7b\"project\": ".toList ++ encodeJString project ++
  ", \"dir\": ".toList ++ encodeJString dir ++ ['\x7d']

-- ==========================================
-- SlackUIManager.create_approval_blocks / create_commit_blocks
-- (src/bot.py:215-267)
-- ==========================================

inductive BlockText where
  | mrkdwn (s : Str)
  | plain (s : Str) (emoji : Bool)

structure Button where
  text : BlockText
  style : Option String
  action_id : String
  value : Option Str

inductive Block where
  | section (text : BlockText)
  | actions (elements : List Button)

/-- `SLACK_TEXT_LIMIT` (src/bot.py:11), the default `limit` of
`safe_truncate`. -/
def SLACK_TEXT_LIMIT : Nat := 3000

/-- `SlackUIManager.create_approval_blocks` (src/bot.py:215-241). -/
def create_approval_blocks (plan_result project_name target_dir : Str) : List Block :=
  let safe_plan := safe_truncate plan_result SLACK_TEXT_LIMIT
  let action_value := dumps_payload project_name target_dir
  [ .section (.mrkdwn ("📋 *修正計画が作成されました:*\n".toList ++ safe_plan ++
      "\n\nこの計画に基づいて、自律的なコード修正を実行してもよろしいですか？".toList)),
    .actions
      [ { text := .plain "✅ 修正を許可する".toList true, style := some "primary",
          action_id := "approve_snyk_fix", value := some action_value },
        { text := .plain "❌ キャンセル".toList true, style := some "danger",
          action_id := "cancel_workflow", value := none } ] ]

/-- `SlackUIManager.create_commit_blocks` (src/bot.py:243-267). -/
def create_commit_blocks (project_name target_dir : Str) : List Block :=
  let action_value := dumps_payload project_name target_dir
  [ .section (.mrkdwn ("🛠️ *修正が完了しました。* 内容を確認し、コミットとプッシュを実行しますか？".toList)),
    .actions
      [ { text := .plain "🚀 コミット＆プッシュ".toList true, style := some "primary",
          action_id := "approve_commit", value := some action_value },
        { text := .plain "💡 あとで自分でやる".toList true, style := none,
          action_id := "cancel_workflow", value := none } ] ]

/-- The `action_id`s carried by a block. -/
def blockActionIds : Block → List String
  | .section _ => []
  | .actions es => es.map (fun b => b.action_id)

/-- All `action_id`s of a message's blocks. -/
def actionIdsOf (bs : List Block) : List String :=
  (bs.map blockActionIds).flatten

/-- The `value` payloads of a message's buttons, in order. -/
def buttonValuesOf (bs : List Block) : List (Option Str) :=
  ((bs.map (fun b => match b with
    | .section _ => []
    | .actions es => es.map (fun e => e.value))).flatten)

-- ==========================================
-- SnykWorkflowHandler as a stage machine  (src/bot.py:273-354)
-- ==========================================

/-- The spec's `RemediationCase.stage` values. -/
inductive Stage where
  | Proposed | Approved | Fixed | CommitApproved | Committed | Cancelled
deriving DecidableEq

/-- Events driving a case: a button click (delivered to the handler
registered for its `action_id`, src/bot.py:281-283) or the completion of a
blocking agent run inside a handler. -/
inductive WfEvent where
  | click (action_id : String)
  | fixCompleted
  | commitCompleted

/-- The `action_id`s rendered in the message that is live at each stage:
at `Proposed` the approval blocks (src/bot.py:301-302), at `Fixed` the
commit blocks (src/bot.py:326-327); terminal stages carry no controls. -/
def controlsAt : Stage → List String
  | .Proposed => actionIdsOf (create_approval_blocks [] [] [])
  | .Fixed => actionIdsOf (create_commit_blocks [] [])
  | _ => []

/-- One stage transition. A click fires only if its `action_id` is among the
live controls; `approve_snyk_fix` is wired to `handle_approve_fix`
(Proposed→Approved, src/bot.py:281,307), `approve_commit` to
`handle_commit_fix` (Fixed→CommitApproved, src/bot.py:282,331) and
`cancel_workflow` to `handle_cancel_workflow` (→Cancelled, src/bot.py:283,349).
`handle_approve_fix` posts the commit blocks after its fix run
(Approved→Fixed, src/bot.py:326-327); `handle_commit_fix` finishes the case
(CommitApproved→Committed, src/bot.py:344-345). -/
def stepStage : Stage → WfEvent → Option Stage
  | s, .click a =>
    if a ∈ controlsAt s then
      if a = "approve_snyk_fix" then some .Approved
      else if a = "approve_commit" then some .CommitApproved
      else if a = "cancel_workflow" then some .Cancelled
      else none
    else none
  | .Approved, .fixCompleted => some .Fixed
  | .CommitApproved, .commitCompleted => some .Committed
  | _, _ => none

/-- The stages visited (in order) when feeding `evs` from `s`; events that no
live handler accepts are ignored. -/
def stagesFrom (s : Stage) : List WfEvent → List Stage
  | [] => []
  | e :: es =>
    match stepStage s e with
    | some s2 => s2 :: stagesFrom s2 es
    | none => stagesFrom s es

-- ==========================================
-- SlackUIManager.build_thread_context  (src/bot.py:193-213)
-- ==========================================

structure SlackMsg where
  text : Str
  user : String

/-- Outcome of `client.conversations_replies(...)`: the fetched message list,
or a raised exception. -/
inductive FetchResult where
  | ok (messages : List SlackMsg)
  | err (e : Str)

/-- `re.sub(r"^!ghost\s+", "", msg_text)`: remove a leading `!ghost` followed
by at least one whitespace character (greedy `\s+`). -/
def stripGhost (s : Str) : Str :=
  if ("!ghost".toList).isPrefixOf s then
    match s.drop 6 with
    | c :: rest => if pyWsp c then (c :: rest).dropWhile pyWsp else s
    | [] => s
  else s

/-- The conversation-assembly loop of src/bot.py:199-208. -/
def mkConversation (bot_user_id : String) : List SlackMsg → List Str
  | [] => []
  | m :: ms =>
    let msg_text := trimL m.text
    if msg_text = [] then mkConversation bot_user_id ms
    else if m.user = bot_user_id then
      if ("⏳".toList).isPrefixOf msg_text then mkConversation bot_user_id ms
      else ("Assistant: ".toList ++ msg_text) :: mkConversation bot_user_id ms
    else
      let clean_text := trimL (stripGhost msg_text)
      if clean_text = [] then mkConversation bot_user_id ms
      else ("User: ".toList ++ clean_text) :: mkConversation bot_user_id ms

/-- `SlackUIManager.build_thread_context` (src/bot.py:193-213): any fetch
failure is swallowed and yields `""`; with at most one message the thread has
no history and yields `""`; otherwise the joined conversation, with the final
entry popped when it is a `User:` turn (src/bot.py:209). -/
def build_thread_context (fetch : FetchResult) (bot_user_id : String) : Str :=
  match fetch with
  | .err _ => []
  | .ok messages =>
    if messages.length ≤ 1 then []
    else
      let conversation := mkConversation bot_user_id messages
      let conversation :=
        match conversation.getLast? with
        | some last =>
          if ("User:".toList).isPrefixOf last then conversation.dropLast
          else conversation
        | none => conversation
      joinLines conversation

-- ==========================================
-- json.loads on the button payload  (src/bot.py:313, 337)
-- A JSON reader for the object-of-two-strings schema the buttons carry.
-- ==========================================

/-- Value of one hex digit. -/
def hexVal (c : Char) : Option Nat :=
  if '0' ≤ c ∧ c ≤ '9' then some (c.toNat - 48)
  else if 'a' ≤ c ∧ c ≤ 'f' then some (c.toNat - 87)
  else if 'A' ≤ c ∧ c ≤ 'F' then some (c.toNat - 55)
  else none

/-- Read exactly four hex digits. -/
def readHex4 : Str → Option (Nat × Str)
  | a :: b :: c :: d :: rest =>
    match hexVal a, hexVal b, hexVal c, hexVal d with
    | some x, some y, some z, some w => some (((x * 16 + y) * 16 + z) * 16 + w, rest)
    | _, _, _, _ => none
  | _ => none

/-- Decode a `\uXXXX` escape (whose `\u` has already been consumed),
including a following low surrogate when the first code unit is a high
surrogate. Lone surrogates are rejected. -/
def readUEscape (rest2 : Str) : Option (Char × Str) :=
  match readHex4 rest2 with
  | none => none
  | some (n, rest3) =>
    if n < 0xd800 ∨ 0xdfff < n then some (Char.ofNat n, rest3)
    else if n ≤ 0xdbff then
      match rest3 with
      | '\\' :: 'u' :: rest4 =>
        match readHex4 rest4 with
        | none => none
        | some (lo, rest5) =>
          if 0xdc00 ≤ lo ∧ lo ≤ 0xdfff then
            some (Char.ofNat (0x10000 + (n - 0xd800) * 0x400 + (lo - 0xdc00)), rest5)
          else none
      | _ => none
    else none

/-- Decode a JSON string body up to (and consuming) the closing quote,
returning the decoded characters and the remaining input. Handles the
two-character escapes, `\uXXXX`, and UTF-16 surrogate pairs; raw control
characters and lone surrogates are rejected. The `fuel` argument only
bounds the recursion; every step consumes at least one input character,
so `fuel = s.length` (as supplied by `parseJString`) never runs out. -/
def parseJStringF : Nat → Str → Option (Str × Str)
  | 0, _ => none
  | _ + 1, [] => none
  | fuel + 1, c :: rest =>
    if c = '"' then some ([], rest)
    else if c = '\\' then
      match rest with
      | [] => none
      | e :: rest2 =>
        if e = '"' then (parseJStringF fuel rest2).map (fun r => ('"' :: r.1, r.2))
        else if e = '\\' then (parseJStringF fuel rest2).map (fun r => ('\\' :: r.1, r.2))
        else if e = '/' then (parseJStringF fuel rest2).map (fun r => ('/' :: r.1, r.2))
        else if e = 'n' then (parseJStringF fuel rest2).map (fun r => ('\n' :: r.1, r.2))
        else if e = 'r' then (parseJStringF fuel rest2).map (fun r => ('\r' :: r.1, r.2))
        else if e = 't' then (parseJStringF fuel rest2).map (fun r => ('\t' :: r.1, r.2))
        else if e = 'b' then (parseJStringF fuel rest2).map (fun r => ('\x08' :: r.1, r.2))
        else if e = 'f' then (parseJStringF fuel rest2).map (fun r => ('\x0c' :: r.1, r.2))
        else if e = 'u' then
          match readUEscape rest2 with
          | none => none
          | some (ch, rest3) =>
            (parseJStringF fuel rest3).map (fun r => (ch :: r.1, r.2))
        else none
    else if c.toNat < 0x20 then none
    else (parseJStringF fuel rest).map (fun r => (c :: r.1, r.2))

def parseJString (s : Str) : Option (Str × Str) := parseJStringF s.length s

/-- JSON insignificant whitespace. -/
def skipWs (s : Str) : Str :=
  s.dropWhile (fun c => c = ' ' || c = '\t' || c = '\n' || c = '\r')

/-- Expect the character `c` (after optional whitespace). -/
def expectChar (c : Char) (s : Str) : Option Str :=
  match skipWs s with
  | x :: rest => if x = c then some rest else none
  | [] => none

/-- A JSON string literal (after optional whitespace). -/
def parseJStringLit (s : Str) : Option (Str × Str) :=
  match skipWs s with
  | '"' :: rest => parseJString rest
  | _ => none

/-- `json.loads(action["value"])` followed by `data["project"]` /
`data["dir"]` (src/bot.py:313-314 and 337-338), read against the exact
object schema the buttons carry: `\x7b"project": <string>, "dir": <string>\x7d`.
Returns `(project, dir)`. -/
def parsePayload (s : Str) : Option (Str × Str) := do
  let r0 ← expectChar '\x7b' s
  let (k1, r1) ← parseJStringLit r0
  let r2 ← expectChar ':' r1
  let (v1, r3) ← parseJStringLit r2
  let r4 ← expectChar ',' r3
  let (k2, r5) ← parseJStringLit r4
  let r6 ← expectChar ':' r5
  let (v2, r7) ← parseJStringLit r6
  let r8 ← expectChar '\x7d' r7
  if skipWs r8 = [] ∧ k1 = "project".toList ∧ k2 = "dir".toList then
    some (v1, v2)
  else none



-- Concrete environments used by the witness theorems below.

/-- The concrete git world for the C1 counterexample: the clone already
exists and `git fetch origin` fails. -/
def fetchFailEnv : GitEnv :=
  { dirExists := fun _ => true,
    cloneRepo := fun _ _ => .ok (),
    fetchOrigin := fun _ => .error "fetch failed".toList }

/-- The concrete git world for the C1 witness: the clone exists and the
fetch succeeds. -/
def fetchOkEnv : GitEnv :=
  { dirExists := fun _ => true,
    cloneRepo := fun _ _ => .ok (),
    fetchOrigin := fun _ => .ok () }

/-- The concrete execution world for the C4 witness: `pro-a` fails with exit
code 1, `pro-b` succeeds, `pro-c` would fail. -/
def fallbackEnvEx : ExecEnv := fun m _ =>
  if m = "pro-a" then .proc 1 "bad out".toList "bad err".toList
  else if m = "pro-b" then .proc 0 "  good out  ".toList []
  else .proc 1 "x".toList "y".toList

/-- The concrete execution world for the C5 witness: every invocation fails
with empty stdout and stderr `boom`. -/
def allFailEnv : ExecEnv := fun _ _ => .proc 1 [] "boom".toList

-- ==========================================
-- Theorems
-- ==========================================

lemma splitOnChar_ne_nil (c : Char) (s : Str) : splitOnChar c s ≠ [] := by
  cases s with
  | nil => simp [splitOnChar]
  | cons x xs =>
    simp only [splitOnChar]
    cases h : splitOnChar c xs with
    | nil => simp
    | cons h t => by_cases hx : x = c <;> simp [hx]

lemma joinChar_splitOnChar (c : Char) (s : Str) :
    joinChar c (splitOnChar c s) = s := by
  induction s with
  | nil => simp [splitOnChar, joinChar]
  | cons x xs ih =>
    simp only [splitOnChar]
    cases h : splitOnChar c xs with
    | nil => exact absurd h (splitOnChar_ne_nil c xs)
    | cons hd tl =>
      rw [h] at ih
      by_cases hx : x = c
      · subst hx
        simp only [if_pos rfl, joinChar]
        cases tl with
        | nil => simp [joinChar] at ih ⊢; exact ih
        | cons a b => simpa [joinChar] using ih
      · simp only [if_neg hx]
        cases tl with
        | nil => simp [joinChar] at ih ⊢; exact ih
        | cons a b => simpa [joinChar] using ih

-- Sanity checks of the embedded definitions on concrete inputs.

example : truncation_suffix.length = 19 := by decide

example :
    strip_preamble ("I".toList ++ apostrophe :: "ll check the repo\n\nlet me see\nHere is the answer\nmore".toList)
      = "Here is the answer\nmore".toList := by decide

example : strip_preamble "  plain answer \n".toList = "plain answer".toList := by decide

example : strip_preamble "Checking files\nLooking around".toList
    = "Checking files\nLooking around".toList := by decide

example :
    extract_snyk_project
      ⟨"Project: <http://x|kurousa/sql-query-builder:package.json>".toList, []⟩
      = "kurousa/sql-query-builder".toList := by decide

example : extract_snyk_project ⟨"Project: org/app - high severity".toList, []⟩
    = "org/app".toList := by decide

example : extract_snyk_project ⟨"no label here".toList, []⟩ = [] := by decide

example :
    parsePayload (dumps_payload "org/app".toList "./projects/app".toList)
      = some ("org/app".toList, "./projects/app".toList) := by decide

example :
    parsePayload (dumps_payload "o\"r\\g".toList "dir\nwith ユニコード 𝄞".toList)
      = some ("o\"r\\g".toList, "dir\nwith ユニコード 𝄞".toList) := by decide

-- C3: SlackUIManager.safe_truncate

/-- C3, counterexample: the claim quantifies over *every* limit, but for a
limit smaller than the 19-character truncation marker the Python slice bound
`limit - len(suffix)` is negative, so `text[:limit - len(suffix)]` counts
from the end of the string and the result exceeds the limit: truncating 25
characters to limit 0 yields 25 characters. -/
theorem safe_truncate_limit_violated :
    ¬ ((safe_truncate (List.replicate 25 'a') 0).length ≤ 0) := by decide

/-- C3 (amended): for every text and every limit at least as large as the
truncation marker (19 characters), the result of `safe_truncate` is at most
`limit` characters; a text that already fits is returned unchanged; and
whenever truncation occurred the result ends with the whole marker. -/
theorem safe_truncate_spec (text : Str) (limit : Nat)
    (hlim : truncation_suffix.length ≤ limit) :
    (safe_truncate text limit).length ≤ limit ∧
    (text.length ≤ limit → safe_truncate text limit = text) ∧
    (limit < text.length → truncation_suffix <:+ safe_truncate text limit) := by
  have hsuf : truncation_suffix.length = 19 := by decide
  refine ⟨?_, ?_, ?_⟩
  · by_cases h : text.length ≤ limit
    · simp [safe_truncate, h]
    · have hk : (0 : Int) ≤ (limit : Int) - (truncation_suffix.length : Int) := by
        omega
      simp only [safe_truncate, if_neg h, pySliceTo, if_pos hk,
        List.length_append, List.length_take]
      have : ((limit : Int) - (truncation_suffix.length : Int)).toNat
          = limit - truncation_suffix.length := by omega
      rw [this]
      omega
  · intro h
    simp [safe_truncate, h]
  · intro h
    have h' : ¬ text.length ≤ limit := by omega
    simp only [safe_truncate, if_neg h']
    exact List.suffix_append _ _

/-- C3, witness for `safe_truncate_spec` at concrete inputs: a 25-character
text truncated to limit 20 stays within the limit and ends with the marker;
a 10-character text is returned unchanged. -/
theorem safe_truncate_spec_witness :
    (safe_truncate (List.replicate 25 'a') 20).length ≤ 20 ∧
    safe_truncate (List.replicate 10 'a') 20 = List.replicate 10 'a' ∧
    truncation_suffix <:+ safe_truncate (List.replicate 25 'a') 20 :=
  ⟨(safe_truncate_spec (List.replicate 25 'a') 20 (by decide)).1,
   (safe_truncate_spec (List.replicate 10 'a') 20 (by decide)).2.1 (by decide),
   (safe_truncate_spec (List.replicate 25 'a') 20 (by decide)).2.2 (by decide)⟩

-- C1: ProjectManager.setup_repository


/-- C1, counterexample: with an existing local clone and a failing fetch,
`setup_repository` does *not* return the existing working directory — the
fetch runs with `check=True` (src/bot.py:170) and its `CalledProcessError`
propagates out of the function, aborting the calling stage. -/
theorem setup_repository_fetch_failure_fatal :
    setup_repository fetchFailEnv "./projects".toList "org/app".toList
        = .error ("fetch failed".toList) ∧
    setup_repository fetchFailEnv "./projects".toList "org/app".toList
        ≠ .ok ("./projects/app".toList) :=
  ⟨rfl, fun h => Except.noConfusion h⟩

/-- C1 (amended): if the local clone of a project already exists,
`setup_repository` runs a fetch of the latest remote state; on fetch success
it returns the existing working directory, but a fetch failure is fatal —
the error propagates to the caller instead of the directory being
returned. -/
theorem setup_repository_existing_dir (env : GitEnv) (root name : Str)
    (hex : env.dirExists (target_dir_of root name) = true) :
    (env.fetchOrigin (target_dir_of root name) = .ok () →
      setup_repository env root name = .ok (target_dir_of root name)) ∧
    (∀ e, env.fetchOrigin (target_dir_of root name) = .error e →
      setup_repository env root name = .error e) := by
  constructor
  · intro hf
    simp [setup_repository, hex, hf]
  · intro e hf
    simp [setup_repository, hex, hf]


/-- C1, witness for `setup_repository_existing_dir` at concrete git worlds:
a successful fetch returns the existing directory, a failing fetch returns
its error. -/
theorem setup_repository_existing_dir_witness :
    setup_repository fetchOkEnv "./projects".toList "org/app".toList
        = .ok (target_dir_of "./projects".toList "org/app".toList) ∧
    setup_repository fetchFailEnv "./projects".toList "org/app".toList
        = .error ("fetch failed".toList) :=
  ⟨(setup_repository_existing_dir fetchOkEnv "./projects".toList
      "org/app".toList rfl).1 rfl,
   (setup_repository_existing_dir fetchFailEnv "./projects".toList
      "org/app".toList rfl).2 ("fetch failed".toList) rfl⟩

-- C4: GeminiAgent._execute_with_fallback

/-- A model attempt that makes the loop continue: non-zero exit, or a raised
exception (src/bot.py:83-90). -/
def modelFails (env : ExecEnv) (prompt : Str) (m : String) : Prop :=
  match env m prompt with
  | .proc code _ _ => code ≠ 0
  | .exn _ => True

/-- A model attempt with exit status zero (src/bot.py:80). -/
def modelSucceeds (env : ExecEnv) (prompt : Str) (m : String) : Prop :=
  match env m prompt with
  | .proc code _ _ => code = 0
  | .exn _ => False

/-- A model attempt that completes with a non-zero exit status. -/
def modelNonzeroExit (env : ExecEnv) (prompt : Str) (m : String) : Prop :=
  match env m prompt with
  | .proc code _ _ => code ≠ 0
  | .exn _ => False

/-- The stripped stdout a successful model returns. -/
def modelStdout (env : ExecEnv) (prompt : Str) (m : String) : Str :=
  match env m prompt with
  | .proc _ out _ => trimL out
  | .exn _ => []

/-- The `(stdout.strip(), stderr.strip())` pair recorded for a non-zero
exit (src/bot.py:84-85). -/
def recordedFailure (env : ExecEnv) (prompt : Str) (m : String) : Str × Str :=
  match env m prompt with
  | .proc _ out err => (trimL out, trimL err)
  | .exn e => ([], e)

lemma execFB_shortcircuit (env : ExecEnv) (prompt : Str) (pre : List String)
    (k : String) (post : List String)
    (hpre : ∀ m ∈ pre, modelFails env prompt m)
    (hk : modelSucceeds env prompt k) :
    ∀ last, execFB env prompt last (pre ++ k :: post)
      = ((modelStdout env prompt k, []), pre ++ [k]) := by
  induction pre with
  | nil =>
    intro last
    simp only [List.nil_append, execFB]
    cases h : env k prompt with
    | proc code out err =>
      have hcode : code = 0 := by simpa [modelSucceeds, h] using hk
      simp [h, hcode, modelStdout]
    | exn e => simp [modelSucceeds, h] at hk
  | cons m ms ih =>
    intro last
    have hm : modelFails env prompt m := hpre m (by simp)
    have hrec := ih (fun x hx => hpre x (by simp [hx]))
    simp only [List.cons_append, execFB]
    cases h : env m prompt with
    | proc code out err =>
      have hcode : code ≠ 0 := by simpa [modelFails, h] using hm
      simp [h, hcode, hrec]
    | exn e => simp [h, hrec]

lemma execFB_exhaust (env : ExecEnv) (prompt : Str) (models : List String)
    (hall : ∀ m ∈ models, modelNonzeroExit env prompt m) :
    ∀ last, execFB env prompt last models
      = ((match models.getLast? with
          | some m => recordedFailure env prompt m
          | none => last), models) := by
  induction models with
  | nil => intro last; simp [execFB]
  | cons m ms ih =>
    intro last
    have hm : modelNonzeroExit env prompt m := hall m (by simp)
    have hrec := ih (fun x hx => hall x (by simp [hx]))
    simp only [execFB]
    cases h : env m prompt with
    | proc code out err =>
      have hcode : code ≠ 0 := by simpa [modelNonzeroExit, h] using hm
      cases ms with
      | nil => simp [h, hcode, hrec, recordedFailure]
      | cons m2 ms2 =>
        simp only [h, hcode, if_neg hcode, hrec, List.getLast?_cons_cons]
        cases hg : (m2 :: ms2).getLast? with
        | none => simp at hg
        | some x => simp
    | exn e => simp [modelNonzeroExit, h] at hm

/-- C4: `_execute_with_fallback` iterates the chain in order.  If every model
before `k` fails (non-zero exit or exception) and `k` exits with status
zero, the call returns `k`'s stripped stdout with empty stderr and invokes
exactly the models up to and including `k` — the rest of the chain is never
invoked.  If all `N` models of the chain complete with non-zero exit status,
exactly the `N` models of the chain are invoked, and the recorded
stdout/stderr pair of the `N`-th (last) failure is returned — no exception
escapes, the pair is returned normally. -/
theorem execute_with_fallback_spec (env : ExecEnv) (prompt : Str) :
    (∀ pre k post, (∀ m ∈ pre, modelFails env prompt m) →
      modelSucceeds env prompt k →
      execute_with_fallback env prompt (pre ++ k :: post)
          = (modelStdout env prompt k, []) ∧
      invokedModels env prompt (pre ++ k :: post) = pre ++ [k]) ∧
    (∀ models, models ≠ [] →
      (∀ m ∈ models, modelNonzeroExit env prompt m) →
      invokedModels env prompt models = models ∧
      execute_with_fallback env prompt models
          = recordedFailure env prompt (models.getLastD "")) := by
  constructor
  · intro pre k post hpre hk
    have h := execFB_shortcircuit env prompt pre k post hpre hk ([], [])
    constructor
    · simp [execute_with_fallback, h]
    · simp [invokedModels, h]
  · intro models hne hall
    have h := execFB_exhaust env prompt models hall ([], [])
    have hlast : models.getLast? = some (models.getLastD "") := by
      cases models with
      | nil => exact absurd rfl hne
      | cons m ms => simp [List.getLastD_eq_getLast?, List.getLast?_cons]
    constructor
    · simp [invokedModels, h]
    · simp only [execute_with_fallback, h, hlast]


/-- C4, witness: with `pro-a` failing and `pro-b` succeeding, the chain
`[pro-a, pro-b, pro-c]` returns `pro-b`'s output and never invokes
`pro-c`. -/
theorem execute_with_fallback_spec_witness :
    execute_with_fallback fallbackEnvEx "p".toList ["pro-a", "pro-b", "pro-c"]
        = (modelStdout fallbackEnvEx "p".toList "pro-b", []) ∧
    invokedModels fallbackEnvEx "p".toList ["pro-a", "pro-b", "pro-c"]
        = ["pro-a", "pro-b"] :=
  (execute_with_fallback_spec fallbackEnvEx "p".toList).1 ["pro-a"] "pro-b" ["pro-c"]
    (by
      intro m hm
      simp only [List.mem_singleton] at hm
      subst hm
      show (1 : Int) ≠ 0
      decide)
    (by show (0 : Int) = 0; rfl)

-- C5: GeminiAgent.run / summarize error paths

/-- C5: in the two-stage pipeline, (1) when the preamble-stripped output of
the primary chain is empty and a stderr error exists, `run` returns the
formatted error string `"Error output:\n" + stderr` and the summarization
chain is never invoked (all invocations are primary-chain invocations with
the original prompt); (2) when the summarization chain is invoked and itself
produces empty stdout, `run` returns the explicit
`"Summarization failed: " + stderr` text instead of silently falling back to
the raw output. -/
theorem run_error_paths (env : ExecEnv) (proM flashM : List String)
    (prompt ctx : Str) :
    (strip_preamble (execute_with_fallback env prompt proM).1 = [] →
      (execute_with_fallback env prompt proM).2 ≠ [] →
      runAgent env proM flashM prompt ctx
          = "Error output:\n".toList ++ (execute_with_fallback env prompt proM).2 ∧
      runInvoked env proM flashM prompt ctx
          = (invokedModels env prompt proM).map (fun m => (m, prompt))) ∧
    (∀ raw, raw = strip_preamble (execute_with_fallback env prompt proM).1 →
      raw ≠ [] →
      ¬ (("Error output:".toList).isPrefixOf raw = true) →
      (execute_with_fallback env (summary_prompt raw ctx) flashM).1 = [] →
      runAgent env proM flashM prompt ctx
          = "Summarization failed: ".toList
              ++ (execute_with_fallback env (summary_prompt raw ctx) flashM).2) := by
  constructor
  · intro h1 h2
    simp only [execute_with_fallback] at h1 h2
    constructor
    · simp [runAgent, runT, execute_with_fallback, invokedModels, h1, h2]
    · simp [runInvoked, runT, invokedModels, h1, h2]
  · intro raw hraw hne hnp hempty
    subst hraw
    simp only [execute_with_fallback] at hne hnp hempty
    simp at hnp
    simp [runAgent, runT, summarizeT, execute_with_fallback, hne, hnp, hempty]


/-- C5, witness for `run_error_paths` (first branch) at a concrete world:
the primary chain yields no output and stderr `boom`, so `run` surfaces the
formatted error string and only the primary chain was invoked. -/
theorem run_error_paths_witness :
    runAgent allFailEnv ["pro-a"] ["flash-a"] "do it".toList "ctx".toList
        = "Error output:\n".toList
            ++ (execute_with_fallback allFailEnv "do it".toList ["pro-a"]).2 ∧
    runInvoked allFailEnv ["pro-a"] ["flash-a"] "do it".toList "ctx".toList
        = (invokedModels allFailEnv "do it".toList ["pro-a"]).map
            (fun m => (m, "do it".toList)) :=
  (run_error_paths allFailEnv ["pro-a"] ["flash-a"] "do it".toList "ctx".toList).1
    (by decide) (by decide)

-- C6 / C10: GeminiAgent._strip_preamble

lemma trimL_cons_wsp {c : Char} (hc : pyWsp c = true) (t : Str) :
    trimL (c :: t) = trimL t := by
  simp [trimL, List.dropWhile_cons, hc]

lemma trimL_eq_nil_all_wsp {l : Str} (h : trimL l = []) :
    ∀ c ∈ l, pyWsp c = true := by
  induction l with
  | nil => intro c hc; cases hc
  | cons c t ih =>
    by_cases hc : pyWsp c = true
    · rw [trimL_cons_wsp hc] at h
      intro x hx
      rcases List.mem_cons.mp hx with rfl | hx
      · exact hc
      · exact ih h x hx
    · exfalso
      simp only [trimL, List.dropWhile_cons, hc, if_neg] at h
      rw [List.reverse_eq_nil_iff, List.dropWhile_eq_nil_iff] at h
      exact hc (h c (by simp))

lemma dropWhile_append_all_wsp {w : Str} (hw : ∀ c ∈ w, pyWsp c = true) (s : Str) :
    (w ++ s).dropWhile pyWsp = s.dropWhile pyWsp := by
  induction w with
  | nil => rfl
  | cons c t ih =>
    simp only [List.cons_append, List.dropWhile_cons, hw c (by simp), if_pos]
    exact ih (fun x hx => hw x (by simp [hx]))

lemma trimL_append_all_wsp {w : Str} (hw : ∀ c ∈ w, pyWsp c = true) (s : Str) :
    trimL (w ++ s) = trimL s := by
  simp [trimL, dropWhile_append_all_wsp hw]

lemma joinLines_blank_prefix {pre : List Str} (hpre : ∀ p ∈ pre, trimL p = [])
    (ls : List Str) (hls : ls ≠ []) :
    ∃ w, (∀ c ∈ w, pyWsp c = true) ∧ joinLines (pre ++ ls) = w ++ joinLines ls := by
  induction pre with
  | nil => exact ⟨[], by simp, rfl⟩
  | cons p pre' ih =>
    obtain ⟨w', hw', hjoin⟩ := ih (fun x hx => hpre x (by simp [hx]))
    refine ⟨p ++ '\n' :: w', ?_, ?_⟩
    · intro c hc
      rcases List.mem_append.mp hc with hc | hc
      · exact trimL_eq_nil_all_wsp (hpre p (by simp)) c hc
      · rcases List.mem_cons.mp hc with rfl | hc
        · decide
        · exact hw' c hc
    · have hne : pre' ++ ls ≠ [] := by
        intro h
        exact hls (List.append_eq_nil.mp h).2
      calc joinLines ((p :: pre') ++ ls)
          = p ++ '\n' :: joinLines (pre' ++ ls) := by
            simp only [List.cons_append, joinLines]
            cases h : pre' ++ ls with
            | nil => exact absurd h hne
            | cons a b => simp [joinChar]
        _ = (p ++ '\n' :: w') ++ joinLines ls := by simp [hjoin]

lemma findContentIdx_none {lines : List Str}
    (h : ∀ p ∈ lines, trimL p = [] ∨ matchesPreamble (trimL p) = true) :
    findContentIdx lines = none := by
  induction lines with
  | nil => rfl
  | cons l ls ih =>
    have hrec := ih (fun x hx => h x (by simp [hx]))
    rcases h l (by simp) with hl | hl
    · simp [findContentIdx, hl, hrec]
    · by_cases hb : trimL l = [] <;> simp [findContentIdx, hb, hl, hrec]

lemma findContentIdx_concat {pre : List Str} {l : Str} {rest : List Str}
    (hpre : ∀ p ∈ pre, trimL p = [] ∨ matchesPreamble (trimL p) = true)
    (hl1 : trimL l ≠ []) (hl2 : matchesPreamble (trimL l) = false) :
    findContentIdx (pre ++ l :: rest) = some pre.length := by
  induction pre with
  | nil => simp [findContentIdx, hl1, hl2]
  | cons p pre' ih =>
    have hrec := ih (fun x hx => hpre x (by simp [hx]))
    rcases hpre p (by simp) with hp | hp
    · simp [findContentIdx, hp, hrec]
    · by_cases hb : trimL p = [] <;> simp [findContentIdx, hb, hp, hrec]

/-- C6: when a text splits into leading lines that are each blank or match
one of the case-insensitive opener patterns, followed by a first line that is
non-blank and matches no opener, `_strip_preamble` returns the text from
that line on (stripped); in particular, when all the leading lines are
blank — i.e. the first non-blank line matches no opener — the text is
returned unchanged apart from stripping. -/
theorem strip_preamble_spec (text : Str) (pre : List Str) (l : Str) (rest : List Str)
    (hsplit : splitLines text = pre ++ l :: rest)
    (hl1 : trimL l ≠ []) (hl2 : matchesPreamble (trimL l) = false) :
    ((∀ p ∈ pre, trimL p = [] ∨ matchesPreamble (trimL p) = true) →
      strip_preamble text = trimL (joinLines (l :: rest))) ∧
    ((∀ p ∈ pre, trimL p = []) →
      strip_preamble text = trimL text) := by
  constructor
  · intro hpre
    simp only [strip_preamble, hsplit, findContentIdx_concat hpre hl1 hl2,
      Option.getD_some]
    rw [List.drop_left]
  · intro hblank
    have hpre : ∀ p ∈ pre, trimL p = [] ∨ matchesPreamble (trimL p) = true :=
      fun p hp => Or.inl (hblank p hp)
    simp only [strip_preamble, hsplit, findContentIdx_concat hpre hl1 hl2,
      Option.getD_some]
    rw [List.drop_left]
    obtain ⟨w, hw, hjoin⟩ := joinLines_blank_prefix hblank (l :: rest) (by simp)
    have htext : text = joinLines (pre ++ l :: rest) := by
      rw [← hsplit]
      exact (joinChar_splitOnChar '\n' text).symm
    rw [htext, hjoin, trimL_append_all_wsp hw]

/-- C6, witness for `strip_preamble_spec`: the text `"\nAnswer\nmore"` has a
single blank leading line, so stripping starts at `Answer` and equals the
whole text trimmed. -/
theorem strip_preamble_spec_witness :
    strip_preamble "\nAnswer\nmore".toList
        = trimL (joinLines ["Answer".toList, "more".toList]) ∧
    strip_preamble "\nAnswer\nmore".toList = trimL "\nAnswer\nmore".toList :=
  ⟨(strip_preamble_spec "\nAnswer\nmore".toList [[]] "Answer".toList
      ["more".toList] (by decide) (by decide) (by decide)).1 (by decide),
   (strip_preamble_spec "\nAnswer\nmore".toList [[]] "Answer".toList
      ["more".toList] (by decide) (by decide) (by decide)).2 (by decide)⟩

/-- C10: if every line of the input is blank or matches an opener pattern,
the loop never finds a content line, `first_content_idx` stays `0`, and
`_strip_preamble` returns the entire input (trimmed) rather than the empty
string. -/
theorem strip_preamble_all_openers (text : Str)
    (h : ∀ p ∈ splitLines text, trimL p = [] ∨ matchesPreamble (trimL p) = true) :
    strip_preamble text = trimL text := by
  simp only [strip_preamble, findContentIdx_none h, Option.getD_none,
    List.drop_zero]
  exact congrArg trimL (joinChar_splitOnChar '\n' text)

/-- C10, witness: a text whose every non-blank line matches an opener is
returned whole (trimmed), not emptied. -/
theorem strip_preamble_all_openers_witness :
    strip_preamble "Checking files\n\nLet me see".toList
        = trimL "Checking files\n\nLet me see".toList :=
  strip_preamble_all_openers "Checking files\n\nLet me see".toList (by decide)

-- C2: stage ordering of the Snyk workflow

lemma stepStage_proposed {e : WfEvent} {s2 : Stage}
    (h : stepStage .Proposed e = some s2) :
    s2 = .Approved ∨ s2 = .Cancelled := by
  cases e with
  | click a =>
    simp only [stepStage] at h
    by_cases h1 : a ∈ controlsAt .Proposed
    · rw [if_pos h1] at h
      have ha : a = "approve_snyk_fix" ∨ a = "cancel_workflow" := by
        simpa [controlsAt, actionIdsOf, create_approval_blocks,
          blockActionIds] using h1
      rcases ha with rfl | rfl
      · simp at h
        exact Or.inl h.symm
      · simp at h
        exact Or.inr h.symm
    · rw [if_neg h1] at h
      cases h
  | fixCompleted => simp [stepStage] at h
  | commitCompleted => simp [stepStage] at h

lemma stepStage_approved {e : WfEvent} {s2 : Stage}
    (h : stepStage .Approved e = some s2) : s2 = .Fixed := by
  cases e with
  | click a =>
    simp only [stepStage] at h
    have hne : ¬ a ∈ controlsAt .Approved := by simp [controlsAt]
    rw [if_neg hne] at h
    cases h
  | fixCompleted =>
    simp only [stepStage, Option.some_inj] at h
    exact h.symm
  | commitCompleted => simp [stepStage] at h

lemma stepStage_cancelled (e : WfEvent) : stepStage .Cancelled e = none := by
  cases e with
  | click a => simp [stepStage, controlsAt]
  | fixCompleted => simp [stepStage]
  | commitCompleted => simp [stepStage]

lemma stagesFrom_through_fixed :
    ∀ (evs : List WfEvent) (s : Stage),
      (s = .Proposed ∨ s = .Approved ∨ s = .Cancelled) →
      (Stage.CommitApproved ∈ stagesFrom s evs ∨
        Stage.Committed ∈ stagesFrom s evs) →
      Stage.Fixed ∈ stagesFrom s evs := by
  intro evs
  induction evs with
  | nil => intro s _ hmem; simp [stagesFrom] at hmem
  | cons e es ih =>
    intro s hs hmem
    simp only [stagesFrom] at hmem ⊢
    cases hstep : stepStage s e with
    | none =>
      rw [hstep] at hmem
      exact ih s hs hmem
    | some s2 =>
      rw [hstep] at hmem
      have hs2 : s2 = .Fixed ∨ s2 = .Approved ∨ s2 = .Cancelled := by
        rcases hs with rfl | rfl | rfl
        · rcases stepStage_proposed hstep with rfl | rfl
          · exact Or.inr (Or.inl rfl)
          · exact Or.inr (Or.inr rfl)
        · exact Or.inl (stepStage_approved hstep)
        · rw [stepStage_cancelled] at hstep; cases hstep
      rcases hs2 with rfl | hs2
      · simp
      · have hmem2 : Stage.CommitApproved ∈ stagesFrom s2 es ∨
            Stage.Committed ∈ stagesFrom s2 es := by
          rcases hmem with hmem | hmem
          · rcases List.mem_cons.mp hmem with heq | hmem
            · exfalso; rcases hs2 with rfl | rfl <;> cases heq
            · exact Or.inl hmem
          · rcases List.mem_cons.mp hmem with heq | hmem
            · exfalso; rcases hs2 with rfl | rfl <;> cases heq
            · exact Or.inr hmem
        exact List.mem_cons_of_mem _
          (ih s2 (Or.inr hs2) hmem2)

/-- C2: the approval message posted at `Proposed` carries exactly the
`approve_snyk_fix` and `cancel_workflow` action identifiers (whatever the
plan text and payload are); consequently one transition out of `Proposed`
reaches only `Approved` (approve control) or `Cancelled` (cancel control);
and along any event sequence started at `Proposed`, the
`CommitApproved`/`Committed` stages are unreachable without passing through
`Fixed` — the commit control is only rendered by the fix handler. -/
theorem proposed_stage_transitions :
    (∀ plan project dir, actionIdsOf (create_approval_blocks plan project dir)
        = ["approve_snyk_fix", "cancel_workflow"]) ∧
    (∀ e s2, stepStage .Proposed e = some s2 →
      s2 = .Approved ∨ s2 = .Cancelled) ∧
    (∀ evs, (Stage.CommitApproved ∈ stagesFrom .Proposed evs ∨
        Stage.Committed ∈ stagesFrom .Proposed evs) →
      Stage.Fixed ∈ stagesFrom .Proposed evs) :=
  ⟨fun _ _ _ => rfl,
   fun _ _ h => stepStage_proposed h,
   fun evs => stagesFrom_through_fixed evs .Proposed (Or.inl rfl)⟩

/-- C2, witness: the canonical approve → fix → commit-click path visits
`Fixed` before `CommitApproved`. -/
theorem proposed_stage_transitions_witness :
    Stage.Fixed ∈ stagesFrom .Proposed
      [.click "approve_snyk_fix", .fixCompleted, .click "approve_commit"] :=
  proposed_stage_transitions.2.2
    [.click "approve_snyk_fix", .fixCompleted, .click "approve_commit"]
    (Or.inl (by decide))

-- C7: ProjectManager.extract_snyk_project

lemma searchProject_eq_none : ∀ {t : Str}, ¬ ("Project:".toList <:+: t) →
    searchProject t = none := by
  intro t
  induction t with
  | nil => intro _; rfl
  | cons c tail ih =>
    intro h
    have hpre : ¬ ("Project:".toList <+: c :: tail) :=
      fun hp => h hp.isInfix
    have htail : ¬ ("Project:".toList <:+: tail) :=
      fun hi => h (List.infix_cons hi)
    simp only [searchProject]
    rw [if_neg (by simpa using hpre)]
    exact ih htail

lemma firstProjectMatch_none {ts : List Str}
    (h : ∀ t ∈ ts, searchProject t = none) :
    firstProjectMatch ts = none := by
  induction ts with
  | nil => rfl
  | cons t ts ih =>
    have hrec := ih (fun x hx => h x (by simp [hx]))
    by_cases ht : t = []
    · simp [firstProjectMatch, ht, hrec]
    · simp [firstProjectMatch, ht, h t (by simp), hrec]

lemma firstProjectMatch_concat {pre : List Str} {f : Str} {post : List Str} {g : Str}
    (hpre : ∀ x ∈ pre, x = [] ∨ searchProject x = none)
    (hf : searchProject f = some g) :
    firstProjectMatch (pre ++ f :: post) = some g := by
  induction pre with
  | nil =>
    have hfne : f ≠ [] := by
      intro h
      rw [h] at hf
      cases hf
    simp [firstProjectMatch, hfne, hf]
  | cons x pre' ih =>
    have hrec := ih (fun y hy => hpre y (by simp [hy]))
    rcases hpre x (by simp) with hx | hx
    · simp [firstProjectMatch, hx, hrec]
    · by_cases hxe : x = []
      · simp [firstProjectMatch, hxe, hrec]
      · simp [firstProjectMatch, hxe, hx, hrec]

/-- C7: `extract_snyk_project` applied to an event whose text contains
`Project: <http://x|kurousa/sql-query-builder:package.json>` returns
`kurousa/sql-query-builder`; it scans the primary text first and then each
attachment's fallback and text fields in order and returns the first match;
and it returns the empty string for every event none of whose fields
contains the `Project:` label. -/
theorem extract_snyk_project_spec :
    (extract_snyk_project
        ⟨"Project: <http://x|kurousa/sql-query-builder:package.json>".toList, []⟩
      = "kurousa/sql-query-builder".toList) ∧
    (∀ ev pre f post g, texts_to_check ev = pre ++ f :: post →
      (∀ x ∈ pre, x = [] ∨ searchProject x = none) →
      searchProject f = some g →
      extract_snyk_project ev = g) ∧
    (∀ ev, (∀ t ∈ texts_to_check ev, ¬ ("Project:".toList <:+: t)) →
      extract_snyk_project ev = []) := by
  refine ⟨by decide, ?_, ?_⟩
  · intro ev pre f post g hsplit hpre hf
    simp [extract_snyk_project, hsplit, firstProjectMatch_concat hpre hf]
  · intro ev h
    simp [extract_snyk_project,
      firstProjectMatch_none (fun t ht => searchProject_eq_none (h t ht))]

/-- C7, witness for `extract_snyk_project_spec` (scan-order branch): the
primary text has no match, the first attachment's fallback does, and its
identifier is returned. -/
theorem extract_snyk_project_spec_witness :
    extract_snyk_project
        ⟨"no match here".toList, [⟨"Project: a/b".toList, []⟩]⟩
      = "a/b".toList :=
  extract_snyk_project_spec.2.1
    ⟨"no match here".toList, [⟨"Project: a/b".toList, []⟩]⟩
    ["no match here".toList] "Project: a/b".toList [[]] "a/b".toList
    (by decide) (by decide) (by decide)

-- C8: SlackUIManager.build_thread_context

/-- C8: `build_thread_context` never surfaces the live instruction and never
propagates a history-fetch failure: (1) on any fetch failure it returns the
empty string (callers always receive a string, never an error); (2) whenever
the assembled conversation's final turn is a `User:` turn, it is dropped and
the remaining turns are joined. -/
theorem build_thread_context_spec :
    (∀ e bot, build_thread_context (.err e) bot = []) ∧
    (∀ msgs bot t, 1 < msgs.length →
      (mkConversation bot msgs).getLast? = some t →
      ("User:".toList).isPrefixOf t = true →
      build_thread_context (.ok msgs) bot
        = joinLines ((mkConversation bot msgs).dropLast)) := by
  constructor
  · intro e bot; rfl
  · intro msgs bot t hlen hlast hpre
    have hn : ¬ msgs.length ≤ 1 := by omega
    simp only [build_thread_context, if_neg hn, hlast, hpre, if_pos]

/-- C8, witness for `build_thread_context_spec`: a two-message thread ending
in a user turn (the live `!ghost` instruction) yields only the earlier
turn. -/
theorem build_thread_context_spec_witness :
    build_thread_context
        (.ok [⟨"hello there".toList, "U1"⟩, ⟨"!ghost do thing".toList, "U1"⟩]) "B"
      = joinLines ((mkConversation "B"
          [⟨"hello there".toList, "U1"⟩, ⟨"!ghost do thing".toList, "U1"⟩]).dropLast) :=
  build_thread_context_spec.2
    [⟨"hello there".toList, "U1"⟩, ⟨"!ghost do thing".toList, "U1"⟩] "B"
    "User: do thing".toList (by decide) (by decide) (by decide)

-- C9: the {project, dir} payload round-trips through the buttons

lemma hexVal_hexDigitChar : ∀ d < 16, hexVal (hexDigitChar d) = some d := by decide

lemma readHex4_hex4 {n : Nat} (hn : n < 0x10000) (t : Str) :
    readHex4 (hex4 n ++ t) = some (n, t) := by
  have h1 := hexVal_hexDigitChar (n / 4096 % 16) (Nat.mod_lt _ (by norm_num))
  have h2 := hexVal_hexDigitChar (n / 256 % 16) (Nat.mod_lt _ (by norm_num))
  have h3 := hexVal_hexDigitChar (n / 16 % 16) (Nat.mod_lt _ (by norm_num))
  have h4 := hexVal_hexDigitChar (n % 16) (Nat.mod_lt _ (by norm_num))
  simp only [hex4, List.cons_append, List.nil_append, readHex4, h1, h2, h3, h4,
    Option.some.injEq, Prod.mk.injEq, and_true]
  omega

lemma escapeChar_cons (c : Char) : ∃ x xs, escapeChar c = x :: xs := by
  unfold escapeChar uEscape
  repeat' split
  all_goals exact ⟨_, _, rfl⟩

lemma one_le_length_escapeChar (c : Char) : 1 ≤ (escapeChar c).length := by
  obtain ⟨x, xs, h⟩ := escapeChar_cons c
  simp [h]

lemma length_le_flatMap_escape (p : Str) :
    p.length ≤ (p.flatMap escapeChar).length := by
  induction p with
  | nil => simp
  | cons c t ih =>
    simp only [List.flatMap_cons, List.length_append, List.length_cons]
    have := one_le_length_escapeChar c
    omega

lemma readUEscape_bmp {n : Nat} (hn : n < 0x10000) (hsur : n < 0xd800 ∨ 0xdfff < n)
    (t : Str) : readUEscape (hex4 n ++ t) = some (Char.ofNat n, t) := by
  simp [readUEscape, readHex4_hex4 hn, hsur]

lemma readUEscape_pair0 {hi lo : Nat} (hhi : hi < 0x10000) (hlo : lo < 0x10000)
    (ha : ¬ (hi < 0xd800 ∨ 0xdfff < hi)) (hb : hi ≤ 0xdbff)
    (hc : 0xdc00 ≤ lo ∧ lo ≤ 0xdfff) (t : Str) :
    readUEscape (hex4 hi ++ ('\\' :: 'u' :: (hex4 lo ++ t)))
      = some (Char.ofNat (0x10000 + (hi - 0xd800) * 0x400 + (lo - 0xdc00)), t) := by
  simp only [readUEscape, readHex4_hex4 hhi]
  rw [if_neg ha, if_pos hb]
  simp only [readHex4_hex4 hlo]
  rw [if_pos hc]

lemma readUEscape_pair (n : Nat) (hlow : 0x10000 ≤ n) (hhigh : n < 0x110000) (t : Str) :
    readUEscape (hex4 (0xd800 + (n - 0x10000) / 0x400) ++
      ('\\' :: 'u' :: (hex4 (0xdc00 + (n - 0x10000) % 0x400) ++ t)))
      = some (Char.ofNat n, t) := by
  rw [readUEscape_pair0 (by omega) (by omega) (by omega) (by omega)
    ⟨by omega, by omega⟩ t]
  have hdec : 0x10000 + (0xd800 + (n - 0x10000) / 0x400 - 0xd800) * 0x400 +
      (0xdc00 + (n - 0x10000) % 0x400 - 0xdc00) = n := by omega
  rw [hdec]

lemma parseJStringF_uescape {fuel : Nat} {body tail : Str} {ch : Char}
    (hread : readUEscape body = some (ch, tail)) :
    parseJStringF (fuel + 1) ('\\' :: 'u' :: body)
      = (parseJStringF fuel tail).map (fun r => (ch :: r.1, r.2)) := by
  simp [parseJStringF, hread]

lemma parse_encode :
    ∀ (p : Str) (rest : Str) (fuel : Nat), p.length < fuel →
      parseJStringF fuel (p.flatMap escapeChar ++ '"' :: rest) = some (p, rest) := by
  intro p
  induction p with
  | nil =>
    intro rest fuel hf
    match fuel, hf with
    | fuel + 1, _ => simp [parseJStringF]
  | cons c p' ih =>
    intro rest fuel hf
    match fuel, hf with
    | fuel + 1, hf =>
      have hih := ih (rest) fuel (by
        simp only [List.length_cons] at hf
        omega)
      simp only [List.flatMap_cons, List.append_assoc]
      by_cases e1 : c = '"'
      · subst e1; simp [escapeChar, parseJStringF, hih]
      · by_cases e2 : c = '\\'
        · subst e2; simp [escapeChar, parseJStringF, hih]
        · by_cases e3 : c = '\n'
          · subst e3; simp [escapeChar, parseJStringF, hih]
          · by_cases e4 : c = '\r'
            · subst e4; simp [escapeChar, parseJStringF, hih]
            · by_cases e5 : c = '\t'
              · subst e5; simp [escapeChar, parseJStringF, hih]
              · by_cases e6 : c = '\x08'
                · subst e6; simp [escapeChar, parseJStringF, hih]
                · by_cases e7 : c = '\x0c'
                  · subst e7; simp [escapeChar, parseJStringF, hih]
                  · by_cases e8 : c.toNat < 0x20 ∨ 0x7e < c.toNat
                    · have hval : c.toNat < 0xd800 ∨
                          0xe000 ≤ c.toNat ∧ c.toNat < 0x110000 := c.valid
                      by_cases hbmp : c.toNat < 0x10000
                      · have hesc : escapeChar c = uEscape c.toNat := by
                          simp [escapeChar, e1, e2, e3, e4, e5, e6, e7, e8, hbmp]
                        have hsur : c.toNat < 0xd800 ∨ 0xdfff < c.toNat := by
                          omega
                        rw [hesc]
                        simp only [uEscape, List.cons_append, List.append_assoc]
                        rw [parseJStringF_uescape (readUEscape_bmp hbmp hsur _), hih]
                        simp [Char.ofNat_toNat]
                      · have hesc : escapeChar c
                            = uEscape (0xd800 + (c.toNat - 0x10000) / 0x400) ++
                              uEscape (0xdc00 + (c.toNat - 0x10000) % 0x400) := by
                          simp [escapeChar, e1, e2, e3, e4, e5, e6, e7, e8, hbmp]
                        rw [hesc]
                        simp only [uEscape, List.cons_append, List.append_assoc]
                        rw [parseJStringF_uescape
                          (readUEscape_pair c.toNat (by omega) (by omega) _), hih]
                        simp [Char.ofNat_toNat]
                    · have hesc : escapeChar c = [c] := by
                        simp [escapeChar, e1, e2, e3, e4, e5, e6, e7, e8]
                      have hge : ¬ c.toNat < 0x20 := by omega
                      rw [hesc]
                      simp [parseJStringF, e1, e2, hge, hih]

lemma parseJString_encode (s rest : Str) :
    parseJString (s.flatMap escapeChar ++ '"' :: rest) = some (s, rest) := by
  unfold parseJString
  apply parse_encode
  have := length_le_flatMap_escape s
  simp only [List.length_append, List.length_cons]
  omega

lemma skipWs_cons {x : Char} (h1 : x ≠ ' ') (h2 : x ≠ '\t') (h3 : x ≠ '\n')
    (h4 : x ≠ '\r') (s : Str) : skipWs (x :: s) = x :: s := by
  simp [skipWs, List.dropWhile_cons, h1, h2, h3, h4]

lemma expectChar_cons {x : Char} (h1 : x ≠ ' ') (h2 : x ≠ '\t') (h3 : x ≠ '\n')
    (h4 : x ≠ '\r') (s : Str) : expectChar x (x :: s) = some s := by
  simp [expectChar, skipWs_cons h1 h2 h3 h4]

lemma expectChar_space {x : Char} (s : Str) :
    expectChar x (' ' :: s) = expectChar x s := by
  simp [expectChar, skipWs]

lemma parseJStringLit_space (s : Str) :
    parseJStringLit (' ' :: s) = parseJStringLit s := by
  simp [parseJStringLit, skipWs]

lemma parseJStringLit_encode (s rest : Str) :
    parseJStringLit (encodeJString s ++ rest) = some (s, rest) := by
  have hshape : encodeJString s ++ rest
      = '"' :: (s.flatMap escapeChar ++ '"' :: rest) := by
    simp [encodeJString]
  rw [hshape]
  have hws : skipWs ('"' :: (s.flatMap escapeChar ++ '"' :: rest))
      = '"' :: (s.flatMap escapeChar ++ '"' :: rest) :=
    skipWs_cons (by decide) (by decide) (by decide) (by decide) _
  simp only [parseJStringLit, hws]
  exact parseJString_encode s rest

/-- C9: the case's identifying fields round-trip through the approval
controls: for every pair of strings, parsing the serialized
`\x7b"project": ..., "dir": ...\x7d` payload recovers exactly the same
project and directory; and both the plan-time approval blocks and the
fix-time commit blocks carry exactly that serialized payload on their
primary button (the cancel button carries none). -/
theorem payload_roundtrip (project dir : Str) :
    parsePayload (dumps_payload project dir) = some (project, dir) ∧
    (∀ plan, buttonValuesOf (create_approval_blocks plan project dir)
        = [some (dumps_payload project dir), none]) ∧
    buttonValuesOf (create_commit_blocks project dir)
        = [some (dumps_payload project dir), none] := by
  refine ⟨?_, fun _ => rfl, rfl⟩
  have h1 : "\x7b\"project\": ".toList
      = '\x7b' :: (encodeJString "project".toList ++ [':', ' ']) := by decide
  have h2 : ", \"dir\": ".toList
      = ',' :: ' ' :: (encodeJString "dir".toList ++ [':', ' ']) := by decide
  rw [dumps_payload, h1, h2]
  simp only [List.cons_append, List.append_assoc, List.nil_append]
  simp only [parsePayload, Option.bind_eq_bind]
  rw [expectChar_cons (by decide) (by decide) (by decide) (by decide)]
  simp only [Option.some_bind]
  rw [parseJStringLit_encode]
  simp only [Option.some_bind, List.cons_append, List.append_assoc, List.nil_append]
  rw [expectChar_cons (by decide) (by decide) (by decide) (by decide)]
  simp only [Option.some_bind]
  rw [parseJStringLit_space, parseJStringLit_encode]
  simp only [Option.some_bind]
  rw [expectChar_cons (by decide) (by decide) (by decide) (by decide)]
  simp only [Option.some_bind]
  rw [parseJStringLit_space, parseJStringLit_encode]
  simp only [Option.some_bind, List.cons_append, List.append_assoc, List.nil_append]
  rw [expectChar_cons (by decide) (by decide) (by decide) (by decide)]
  simp only [Option.some_bind]
  rw [parseJStringLit_space, parseJStringLit_encode]
  simp only [Option.some_bind]
  rw [expectChar_cons (by decide) (by decide) (by decide) (by decide)]
  simp only [Option.some_bind]
  simp [skipWs]


